import Mathlib

/-!
# Tosa: junction-read counting engine, shallow embedding

A shallow embedding of the Rust program `tosa` (src/main.rs, src/boundary.rs):
a junction-read counter for bulk and single-cell RNA-seq alignments.

Rust `HashMap`s are modelled as association lists with unique keys
(`alLookup`, `alUpdate`, `alRemove`); `HashSet`s of strings as lists with
`insertSet`.  All counters are `Nat`; genomic positions are `Int` (Rust
`i64`).  Iteration order of a Rust `HashMap`, which the language leaves
unspecified, is modelled explicitly where it matters for output
serialization (see `matrixDataLines`).
-/

namespace Tosa

/-- Association-list lookup: first entry whose key matches. -/
def alLookup {α : Type} : List (String × α) → String → Option α
  | [], _ => none
  | (k, v) :: rest, key => if k = key then some v else alLookup rest key

/-- Models `m.entry(key).or_insert(d)` followed by applying `f` to the value:
update in place if the key is present, else append `(key, f d)`. -/
def alUpdate {α : Type} : List (String × α) → String → α → (α → α) → List (String × α)
  | [], key, d, f => [(key, f d)]
  | (k, v) :: rest, key, d, f =>
    if k = key then (k, f v) :: rest else (k, v) :: alUpdate rest key d f

/-- Models `HashMap::remove`: drop every entry with this key. -/
def alRemove {α : Type} : List (String × α) → String → List (String × α)
  | [], _ => []
  | (k, v) :: rest, key =>
    if k = key then alRemove rest key else (k, v) :: alRemove rest key

/-- Models `HashSet::insert` on a list-modelled set of strings. -/
def insertSet (s : List String) (x : String) : List String :=
  if x ∈ s then s else s ++ [x]

/-- One CIGAR operation (rust_htslib `Cigar`), length a `u32` modelled as `Nat`. -/
inductive CigarOp : Type where
  | Match (l : Nat)
  | Ins (l : Nat)
  | Del (l : Nat)
  | RefSkip (l : Nat)
  | SoftClip (l : Nat)
  | HardClip (l : Nat)
  | Pad (l : Nat)
  | Equal (l : Nat)
  | Diff (l : Nat)
deriving DecidableEq, Repr

/-- The count state threaded through `process_junction` (main.rs lines 13-47):
per-junction per-barcode counts, per-junction bulk totals, and the
per-junction set of read names already counted. -/
structure Counts : Type where
  junction_counts : List (String × List (String × Nat))
  junction_totals : List (String × Nat)
  processed_reads : List (String × List String)
deriving DecidableEq, Repr

/-- The counting tail of `process_junction` (main.rs lines 34-46), reached
only after the dedup gate: single mode increments the per-barcode cell when
a barcode is present, bulk mode increments the junction total. -/
def countRead (mode : String) (junction_coords : String) (cell_barcode : Option String)
    (st : Counts) : Counts :=
  if mode = "single" then
    match cell_barcode with
    | some cb_str =>
      let jc := alUpdate st.junction_counts junction_coords []
        (fun cells => alUpdate cells cb_str 0 (fun c => c + 1))
      { st with junction_counts := jc }
    | none => st
  else
    let jt := alUpdate st.junction_totals junction_coords 0 (fun c => c + 1)
    { st with junction_totals := jt }

/-- Function `process_junction` (main.rs lines 13-47): skip if this read name was
already processed for this junction, else record the name and count. -/
def process_junction (junction_coords : String) (cell_barcode : Option String)
    (read_name : String) (mode : String) (st : Counts) : Counts :=
  let pr := alUpdate st.processed_reads junction_coords [] (fun r => r ++ [read_name])
  match alLookup st.processed_reads junction_coords with
  | some reads =>
    if read_name ∈ reads then st
    else countRead mode junction_coords cell_barcode { st with processed_reads := pr }
  | none =>
    countRead mode junction_coords cell_barcode { st with processed_reads := pr }

/-- The anchor accumulation loop body shared by the left walk (main.rs lines
243-257, which visits indices i-1, i-2, ..., 0, i.e. the reversed prefix)
and the right walk (lines 261-275, the suffix after i): Match/Equal/Diff
lengths accumulate, stopping once `min_anchor_length` is reached; RefSkip is
skipped; any other operation stops the walk. -/
def anchorScan (min_anchor_length : Int) : List CigarOp → Int → Int
  | [], acc => acc
  | op :: rest, acc =>
    match op with
    | CigarOp.Match l | CigarOp.Equal l | CigarOp.Diff l =>
      let acc2 := acc + (l : Int)
      if acc2 ≥ min_anchor_length then acc2 else anchorScan min_anchor_length rest acc2
    | CigarOp.RefSkip _ => anchorScan min_anchor_length rest acc
    | _ => acc

/-- Left anchor length for the RefSkip at index `i` (main.rs lines 243-257). -/
def left_anchor_length (cigars : List CigarOp) (min_anchor_length : Int) (i : Nat) : Int :=
  anchorScan min_anchor_length ((cigars.take i).reverse) 0

/-- Right anchor length for the RefSkip at index `i` (main.rs lines 261-275). -/
def right_anchor_length (cigars : List CigarOp) (min_anchor_length : Int) (i : Nat) : Int :=
  anchorScan min_anchor_length (cigars.drop (i + 1)) 0

/-- Models `format!("{}:{}-{}", ref_name, start, end)`. -/
def junctionKey (ref_name : String) (start stop : Int) : String :=
  ref_name ++ ":" ++ toString start ++ "-" ++ toString stop

/-- Run configuration (the clap options that reach the engine). -/
structure Config : Type where
  mode : String
  min_anchor_length : Int
  min_intron_length : Int
  max_intron_length : Int
deriving DecidableEq, Repr

/-- Per-record context: resolved reference name, read name, extracted barcode. -/
structure RecordCtx : Type where
  ref_name : String
  qname : String
  cell_barcode : Option String
deriving DecidableEq, Repr

/-- Engine state mutated by the main loop: counts, the set of supported
junctions, the buffered (barcode, position) entries per coordinate, and the
set of observed cell barcodes. -/
structure EngineState : Type where
  counts : Counts
  supported_junctions : List String
  buffered_reads : List (String × List (Option String × Int))
  cell_barcodes : List String
deriving DecidableEq, Repr

/-- Replay of the buffered entries of a coordinate through `process_junction`
(main.rs lines 286-296), each submitted under `qname`, the read name of the
triggering record. -/
def flushBuffered (junction_coords qname mode : String)
    (buffered : List (Option String × Int)) (st : EngineState) : EngineState :=
  buffered.foldl
    (fun s entry =>
      { s with counts := process_junction junction_coords entry.1 qname mode s.counts })
    st

/-- The supported-junction branch (main.rs lines 283-297): mark the
coordinate supported, then remove and replay its buffer if one exists. -/
def supportAndFlush (junction_coords qname mode : String) (st : EngineState) :
    EngineState :=
  let sj := insertSet st.supported_junctions junction_coords
  let stS := { st with supported_junctions := sj }
  match alLookup stS.buffered_reads junction_coords with
  | some buffered =>
    let br := alRemove stS.buffered_reads junction_coords
    flushBuffered junction_coords qname mode buffered { stS with buffered_reads := br }
  | none => stS

/-- Process-or-buffer for the current read (main.rs lines 300-316): count it
if the coordinate is supported, else append (barcode, position) to the
buffer of the coordinate. -/
def countOrBuffer (junction_coords qname mode : String) (cb : Option String)
    (current_pos : Int) (st : EngineState) : EngineState :=
  if junction_coords ∈ st.supported_junctions then
    { st with counts := process_junction junction_coords cb qname mode st.counts }
  else
    let br2 := alUpdate st.buffered_reads junction_coords []
      (fun v => v ++ [(cb, current_pos)])
    { st with buffered_reads := br2 }

/-- One iteration of the per-record CIGAR loop (main.rs lines 229-326) at
index `i`, carrying `(state, current_pos)`. -/
def stepIndex (cfg : Config) (ctx : RecordCtx) (cigars : List CigarOp)
    (acc : EngineState × Int) (i : Nat) : EngineState × Int :=
  let st := acc.1
  let current_pos := acc.2
  match cigars.get? i with
  | none => acc
  | some op =>
    match op with
    | CigarOp.RefSkip len =>
      let intron_length : Int := (len : Int)
      if intron_length < cfg.min_intron_length ∨ intron_length > cfg.max_intron_length then
        (st, current_pos + intron_length)
      else
        let leftA := left_anchor_length cigars cfg.min_anchor_length i
        let rightA := right_anchor_length cigars cfg.min_anchor_length i
        let has_left_anchor := leftA ≥ cfg.min_anchor_length
        let has_right_anchor := rightA ≥ cfg.min_anchor_length
        let start := current_pos
        let stop := start + intron_length + 1
        let junction_coords := junctionKey ctx.ref_name start stop
        let st1 :=
          if has_left_anchor ∧ has_right_anchor then
            supportAndFlush junction_coords ctx.qname cfg.mode st
          else st
        let st2 := countOrBuffer junction_coords ctx.qname cfg.mode ctx.cell_barcode
          current_pos st1
        (st2, current_pos + intron_length)
    | CigarOp.SoftClip _ => (st, current_pos)
    | CigarOp.Match l => (st, current_pos + (l : Int))
    | CigarOp.Ins l => (st, current_pos + (l : Int))
    | CigarOp.Del l => (st, current_pos + (l : Int))
    | _ => (st, current_pos)

/-- The whole CIGAR loop of one record: fold `stepIndex` over all indices. -/
def processCigars (cfg : Config) (ctx : RecordCtx) (cigars : List CigarOp)
    (st : EngineState) (pos0 : Int) : EngineState × Int :=
  (List.range cigars.length).foldl (stepIndex cfg ctx cigars) (st, pos0)

/-- One alignment record as consumed by the loop: reference id, 0-based
position, read name, the optional CB string tag, the optional integer
locus-count tag (present on the external interface; `main` never reads it),
and the operation list. -/
structure Record : Type where
  tid : Int
  pos : Int
  qname : String
  cb_tag : Option String
  nh_tag : Option Int
  cigars : List CigarOp
deriving DecidableEq, Repr

/-- Per-record processing (main.rs lines 200-327): barcode extraction in
single mode, the barcode-of-interest filter, barcode-set insertion, and the
CIGAR loop. -/
def processRecord (cfg : Config) (cell_barcode_file_given : Bool)
    (cell_barcodes_of_interest : List String) (ref_name : String)
    (st : EngineState) (r : Record) : EngineState :=
  let cell_barcode := if cfg.mode = "single" then r.cb_tag else none
  let skipped : Bool :=
    match cell_barcode with
    | some cb =>
      cell_barcode_file_given && !cell_barcodes_of_interest.isEmpty &&
        !(cell_barcodes_of_interest.contains cb)
    | none => false
  if skipped then st
  else if cfg.mode = "bulk" ∨ cell_barcode.isSome then
    let st1 :=
      match cell_barcode with
      | some cb_str => { st with cell_barcodes := insertSet st.cell_barcodes cb_str }
      | none => st
    let ctx : RecordCtx := { ref_name := ref_name, qname := r.qname, cell_barcode := cell_barcode }
    (processCigars cfg ctx r.cigars st1 r.pos).1
  else st

/-- Models `record.tid() as usize`: the `i32` is sign-extended and reinterpreted
as a 64-bit unsigned index. -/
def i32AsUsize (tid : Int) : Nat := (tid % (2 ^ 64)).toNat

/-- Models `reference_names[record.tid() as usize]` fallibly. -/
def refNameLookup (reference_names : List String) (tid : Int) : Option String :=
  reference_names.get? (i32AsUsize tid)

/-- The empty engine state at the start of a run. -/
def initialState : EngineState :=
  { counts := { junction_counts := [], junction_totals := [], processed_reads := [] },
    supported_junctions := [], buffered_reads := [], cell_barcodes := [] }

/-- The record stream loop (main.rs lines 189-328).  `none` models the
panic of an out-of-bounds `reference_names` index. -/
def runRecords (cfg : Config) (cell_barcode_file_given : Bool)
    (cell_barcodes_of_interest : List String) (reference_names : List String) :
    List Record → EngineState → Option EngineState
  | [], st => some st
  | r :: rest, st =>
    match refNameLookup reference_names r.tid with
    | none => none
    | some ref_name =>
      runRecords cfg cell_barcode_file_given cell_barcodes_of_interest reference_names
        rest (processRecord cfg cell_barcode_file_given cell_barcodes_of_interest ref_name st r)

/-- Bulk total recorded for a coordinate (0 when absent). -/
def totalsAt (st : Counts) (c : String) : Nat :=
  (alLookup st.junction_totals c).getD 0

/-- Single-cell count recorded for a coordinate and barcode (0 when absent). -/
def cellAt (st : Counts) (c b : String) : Nat :=
  (alLookup ((alLookup st.junction_counts c).getD []) b).getD 0

/-- Read names already processed for a coordinate. -/
def processedNames (st : Counts) (c : String) : List String :=
  (alLookup st.processed_reads c).getD []

/-- How far one loop iteration moves `current_pos` (main.rs lines 229-325):
RefSkip always advances by the intron length (both the in-range and the
filtered branch); Match/Ins/Del advance by their length; SoftClip is
skipped; every other operation falls into the `_ => 0` arm. -/
def cigarAdvance : CigarOp → Int
  | CigarOp.RefSkip l => (l : Int)
  | CigarOp.Match l => (l : Int)
  | CigarOp.Ins l => (l : Int)
  | CigarOp.Del l => (l : Int)
  | _ => 0

/-- The value of `current_pos` when the loop reaches index `i`. -/
def posBeforeIndex (pos0 : Int) (cigars : List CigarOp) (i : Nat) : Int :=
  (cigars.take i).foldl (fun p op => p + cigarAdvance op) pos0

/-- The junction coordinate the loop forms at index `i`, if that index holds
a RefSkip whose length passes the intron-length filter. -/
def candidateAt (cfg : Config) (ref_name : String) (pos0 : Int)
    (cigars : List CigarOp) (i : Nat) : Option String :=
  match cigars.get? i with
  | some (CigarOp.RefSkip len) =>
    if cfg.min_intron_length ≤ (len : Int) ∧ (len : Int) ≤ cfg.max_intron_length then
      some (junctionKey ref_name (posBeforeIndex pos0 cigars i)
        (posBeforeIndex pos0 cigars i + (len : Int) + 1))
    else none
  | _ => none

/-- All junction candidates one record emits, in index order. -/
def candidateKeys (cfg : Config) (ref_name : String) (pos0 : Int)
    (cigars : List CigarOp) : List String :=
  (List.range cigars.length).filterMap (candidateAt cfg ref_name pos0 cigars)

/-- Whether some RefSkip of this record forms coordinate `c` with both
anchors reaching `min_anchor_length` (the support condition of main.rs
line 282). -/
def supportsCoord (cfg : Config) (ref_name : String) (r : Record) (c : String) : Bool :=
  (List.range r.cigars.length).any (fun i =>
    decide (candidateAt cfg ref_name r.pos r.cigars i = some c) &&
    decide (left_anchor_length r.cigars cfg.min_anchor_length i ≥ cfg.min_anchor_length) &&
    decide (right_anchor_length r.cigars cfg.min_anchor_length i ≥ cfg.min_anchor_length))

/-- Lexicographic comparison of character lists by code point, the order
`itertools::sorted` uses on the (ASCII) output keys. -/
def charListLt : List Char → List Char → Bool
  | [], [] => false
  | [], _ :: _ => true
  | _ :: _, [] => false
  | a :: as, b :: bs =>
    if a.toNat < b.toNat then true
    else if b.toNat < a.toNat then false
    else charListLt as bs

/-- Total string order used by `itertools::sorted` on the output keys. -/
def strLe (a b : String) : Bool := !(charListLt b.data a.data)

/-- Insertion into a sorted list of strings. -/
def insertSorted (x : String) : List String → List String
  | [] => [x]
  | y :: rest => if strLe x y then x :: y :: rest else y :: insertSorted x rest

/-- Models `iter().sorted()` on strings. -/
def sortStrings : List String → List String
  | [] => []
  | x :: rest => insertSorted x (sortStrings rest)

/-- Insertion into a key-sorted association list (keys are unique). -/
def insertSortedPair (x : String × Nat) : List (String × Nat) → List (String × Nat)
  | [] => [x]
  | y :: rest => if strLe x.1 y.1 then x :: y :: rest else y :: insertSortedPair x rest

/-- Models `iter().sorted()` on (key, count) pairs with unique keys. -/
def sortPairs : List (String × Nat) → List (String × Nat)
  | [] => []
  | x :: rest => insertSortedPair x (sortPairs rest)

/-- Bulk-mode output (main.rs lines 390-397): a header line then one sorted
`junction\tcount` row per entry of `junction_totals`. -/
def bulkOutputLines (junction_totals : List (String × Nat)) : List String :=
  "Junction\tCount" :: (sortPairs junction_totals).map (fun p => p.1 ++ "\t" ++ toString p.2)

/-- The three matrix header lines (main.rs lines 358-365): format marker,
comment line, and `feature_count barcode_count nonzero_count` where the
nonzero count sums the sizes of all per-feature cell maps. -/
def matrixHeader (junction_counts : List (String × List (String × Nat)))
    (feature_list barcode_list : List String) : List String :=
  ["%%MatrixMarket matrix coordinate integer general", "%",
   toString feature_list.length ++ " " ++ toString barcode_list.length ++ " " ++
     toString ((junction_counts.map (fun p => p.2.length)).sum)]

/-- Map `barcode_map` (main.rs line 369): barcode to enumerate-index plus one. -/
def barcode_map (barcode_list : List String) : List (String × Nat) :=
  barcode_list.enum.map (fun p => (p.2, p.1 + 1))

/-- The matrix data lines (main.rs lines 371-380).  `cellOrder f` is the
iteration order of the Rust `HashMap` holding the cells of feature `f`, which
the language leaves unspecified; a valid order is any permutation of the
stored cell map. -/
def matrixDataLines (junction_counts : List (String × List (String × Nat)))
    (feature_list barcode_list : List String)
    (cellOrder : String → List (String × Nat)) : List String :=
  let bmap := barcode_map barcode_list
  (feature_list.enum).flatMap (fun p =>
    match alLookup junction_counts p.2 with
    | some _ =>
      (cellOrder p.2).filterMap (fun cell =>
        match alLookup bmap cell.1 with
        | some j => some (toString (p.1 + 1) ++ " " ++ toString (j + 1) ++ " " ++ toString cell.2)
        | none => none)
    | none => [])

/-- The flat `Feature\tBarcode\tCount` data lines (main.rs lines 371-380),
emitted in the same doubly nested iteration as the matrix lines. -/
def tsvDataLines (junction_counts : List (String × List (String × Nat)))
    (feature_list barcode_list : List String)
    (cellOrder : String → List (String × Nat)) : List String :=
  let bmap := barcode_map barcode_list
  (feature_list.enum).flatMap (fun p =>
    match alLookup junction_counts p.2 with
    | some _ =>
      (cellOrder p.2).filterMap (fun cell =>
        match alLookup bmap cell.1 with
        | some _ => some (p.2 ++ "\t" ++ cell.1 ++ "\t" ++ toString cell.2)
        | none => none)
    | none => [])

/-- The iteration order the model uses when a single fixed order suffices:
the stored association list itself. -/
def storedOrder (junction_counts : List (String × List (String × Nat))) :
    String → List (String × Nat) :=
  fun f => (alLookup junction_counts f).getD []

/-- The sorted feature list of single-cell mode (main.rs line 348). -/
def featureListOf (st : EngineState) : List String :=
  sortStrings (st.counts.junction_counts.map Prod.fst)

/-- The sorted barcode list of single-cell mode (main.rs line 341). -/
def barcodeListOf (st : EngineState) : List String :=
  sortStrings st.cell_barcodes

/-- The full `matrix.mtx` content of single-cell mode, one string per line. -/
def singleMatrixLines (st : EngineState) (cellOrder : String → List (String × Nat)) :
    List String :=
  matrixHeader st.counts.junction_counts (featureListOf st) (barcodeListOf st) ++
    matrixDataLines st.counts.junction_counts (featureListOf st) (barcodeListOf st) cellOrder

/-- The full `junction_barcodes.tsv` content of single-cell mode. -/
def singleTsvLines (st : EngineState) (cellOrder : String → List (String × Nat)) :
    List String :=
  "Feature\tBarcode\tCount" ::
    tsvDataLines st.counts.junction_counts (featureListOf st) (barcodeListOf st) cellOrder

/-- The command-line options `main` registers with clap
(main.rs lines 64-106). -/
def recognizedOptions : List String :=
  ["mode", "bam_file", "output_prefix", "cell_barcode_file", "anchor_length",
   "min_intron_length", "max_intron_length", "verbose"]

/-- State of the boundary counter (boundary.rs): per-intron per-barcode
counts, per-intron totals for both boundary sides, and the per-chromosome
set of read names already counted. -/
structure BoundaryState : Type where
  left_counts : List (String × List (String × Nat))
  right_counts : List (String × List (String × Nat))
  left_totals : List (String × Nat)
  right_totals : List (String × Nat)
  processed_boundary_reads : List (String × List String)
deriving DecidableEq, Repr

/-- Function `count_exon_intron_boundaries` (boundary.rs lines 3-63): dedup the read
name per chromosome, then for every known intron on the same chromosome
increment the left counter when `start <= intron_start <= end` and the
right counter when `start <= intron_end <= end`; per-barcode cells in
single mode, global totals otherwise. -/
def count_exon_intron_boundaries (cell_barcode : Option String)
    (introns : List (String × Int × Int)) (chrom : String) (start stop : Int)
    (read_name : String) (mode : String) (st : BoundaryState) : BoundaryState :=
  let alreadySeen : Bool :=
    match alLookup st.processed_boundary_reads chrom with
    | some reads => reads.contains read_name
    | none => false
  if alreadySeen then st
  else
    let pbr := alUpdate st.processed_boundary_reads chrom [] (fun r => r ++ [read_name])
    let st0 := { st with processed_boundary_reads := pbr }
    if mode = "single" then
      match cell_barcode with
      | some cb_str =>
        introns.foldl
          (fun s intr =>
            let key := junctionKey intr.1 intr.2.1 intr.2.2
            if chrom = intr.1 then
              let s1 :=
                if start ≤ intr.2.1 ∧ stop ≥ intr.2.1 then
                  let lc := alUpdate s.left_counts key []
                    (fun cells => alUpdate cells cb_str 0 (fun c => c + 1))
                  { s with left_counts := lc }
                else s
              if start ≤ intr.2.2 ∧ stop ≥ intr.2.2 then
                let rc := alUpdate s1.right_counts key []
                  (fun cells => alUpdate cells cb_str 0 (fun c => c + 1))
                { s1 with right_counts := rc }
              else s1
            else s)
          st0
      | none => st0
    else
      introns.foldl
        (fun s intr =>
          let key := junctionKey intr.1 intr.2.1 intr.2.2
          if chrom = intr.1 then
            let s1 :=
              if start ≤ intr.2.1 ∧ stop ≥ intr.2.1 then
                let lt := alUpdate s.left_totals key 0 (fun c => c + 1)
                { s with left_totals := lt }
              else s
            if start ≤ intr.2.2 ∧ stop ≥ intr.2.2 then
              let rt := alUpdate s1.right_totals key 0 (fun c => c + 1)
              { s1 with right_totals := rt }
            else s1
          else s)
        st0

/-- The empty boundary state. -/
def initialBoundaryState : BoundaryState :=
  { left_counts := [], right_counts := [], left_totals := [], right_totals := [],
    processed_boundary_reads := [] }

/-- The default bulk configuration (clap defaults: anchor 8, intron 70-500000). -/
def cfgBulkDefault : Config := ⟨"bulk", 8, 70, 500000⟩

/-- A read at coordinate chr1:103-204 whose left anchor is only 3 bases. -/
def recShortAnchor : Record :=
  ⟨0, 100, "r1", none, none, [CigarOp.Match 3, CigarOp.RefSkip 100, CigarOp.Match 50]⟩

/-- A later read at the same coordinate chr1:103-204 with both anchors of 10. -/
def recFullAnchor : Record :=
  ⟨0, 93, "r2", none, none, [CigarOp.Match 10, CigarOp.RefSkip 100, CigarOp.Match 10]⟩

/-- The record of the bulk scenario of the spec: CIGAR [Match 50, RefSkip 80, Match 50]
starting at position 100. -/
def recScenario : Record :=
  ⟨0, 100, "r1", none, none, [CigarOp.Match 50, CigarOp.RefSkip 80, CigarOp.Match 50]⟩

/-- The scenario record with the leading Match replaced by an Equal operation. -/
def recEqualAnchor : Record :=
  ⟨0, 100, "r1", none, none, [CigarOp.Equal 50, CigarOp.RefSkip 80, CigarOp.Match 50]⟩

/-- A junction-free record whose interval [50, 150) straddles both boundaries
of the intron ("chr1", 100, 140). -/
def recPlainMatch : Record := ⟨0, 50, "r1", none, none, [CigarOp.Match 100]⟩

/-- A record carrying a locus-count tag of 1000000. -/
def recManyLoci : Record :=
  ⟨0, 100, "r1", none, some 1000000, [CigarOp.Match 50, CigarOp.RefSkip 80, CigarOp.Match 50]⟩

/-- An unmapped record: tid is -1. -/
def recUnmapped : Record := ⟨-1, 0, "r0", none, none, []⟩

/-- A final engine state of a single-cell run with one feature and one barcode. -/
def stOneCell : EngineState :=
  ⟨⟨[("chr1:100-200", [("CB1", 1)])], [], [("chr1:100-200", ["r1"])]⟩,
   ["chr1:100-200"], [], ["CB1"]⟩

/-- A final engine state of a single-cell run with one feature and two barcodes. -/
def stTwoCells : EngineState :=
  ⟨⟨[("chr1:100-200", [("CB1", 1), ("CB2", 1)])], [], [("chr1:100-200", ["r1", "r2"])]⟩,
   ["chr1:100-200"], [], ["CB1", "CB2"]⟩

/-- One possible hash-map iteration order of the cells of `stTwoCells`. -/
def orderForward : String → List (String × Nat) := fun _ => [("CB1", 1), ("CB2", 1)]

/-- The other possible hash-map iteration order of the cells of `stTwoCells`. -/
def orderBackward : String → List (String × Nat) := fun _ => [("CB2", 1), ("CB1", 1)]

/-- A count state in which read "r2" is already processed for chr1:103-204. -/
def stSeenR2 : Counts := ⟨[], [("chr1:103-204", 1)], [("chr1:103-204", ["r2"])]⟩

/-- An engine state wrapping `stSeenR2`. -/
def stEngSeen : EngineState := ⟨stSeenR2, ["chr1:103-204"], [], []⟩

/-- Closure of a predicate on count states under `process_junction`. -/
def PJClosed (P : Counts → Prop) : Prop :=
  ∀ c cb n mode st, P st → P (process_junction c cb n mode st)

/-- A coordinate that is still unsupported and has never contributed to the
count table: its buffering state has not leaked into any output entry. -/
def neverCounted (c : String) (st : EngineState) : Prop :=
  c ∉ st.supported_junctions ∧ alLookup st.counts.junction_totals c = none ∧
    alLookup st.counts.junction_counts c = none

theorem alLookup_alUpdate_self {α : Type} (m : List (String × α)) (k : String)
    (d : α) (f : α → α) :
    alLookup (alUpdate m k d f) k = some (f ((alLookup m k).getD d)) := by
  induction m with
  | nil => simp [alLookup, alUpdate]
  | cons hd tl ih =>
    obtain ⟨k', v⟩ := hd
    by_cases h : k' = k
    · subst h
      simp [alLookup, alUpdate]
    · simp [alLookup, alUpdate, h, ih]

theorem alLookup_alUpdate_ne {α : Type} (m : List (String × α)) (k k' : String)
    (d : α) (f : α → α) (hne : k' ≠ k) :
    alLookup (alUpdate m k d f) k' = alLookup m k' := by
  induction m with
  | nil => simp [alLookup, alUpdate, Ne.symm hne]
  | cons hd tl ih =>
    obtain ⟨k0, v⟩ := hd
    by_cases h : k0 = k
    · subst h
      simp [alLookup, alUpdate, Ne.symm hne]
    · simp only [alUpdate, if_neg h, alLookup]
      by_cases h2 : k0 = k'
      · simp [h2]
      · simp [h2, ih]

theorem countRead_processed (mode junction_coords : String) (cb : Option String)
    (st : Counts) :
    (countRead mode junction_coords cb st).processed_reads = st.processed_reads := by
  unfold countRead
  split
  · cases cb <;> simp
  · simp

theorem countRead_totals_single (junction_coords : String) (cb : Option String)
    (st : Counts) :
    (countRead "single" junction_coords cb st).junction_totals = st.junction_totals := by
  unfold countRead
  cases cb <;> simp

theorem countRead_counts_bulk (mode junction_coords : String) (cb : Option String)
    (st : Counts) (hmode : mode ≠ "single") :
    (countRead mode junction_coords cb st).junction_counts = st.junction_counts := by
  unfold countRead
  simp [hmode]

theorem processedNames_process_junction_self (c : String) (cb : Option String)
    (n mode : String) (st : Counts) :
    n ∈ processedNames (process_junction c cb n mode st) c := by
  unfold process_junction
  cases h : alLookup st.processed_reads c with
  | none =>
    simp only [processedNames, countRead_processed, alLookup_alUpdate_self, h]
    simp
  | some reads =>
    by_cases hmem : n ∈ reads
    · simp [processedNames, h, hmem]
    · simp only [hmem, if_false, processedNames, countRead_processed,
        alLookup_alUpdate_self, h]
      simp

theorem process_junction_noop (c : String) (cb : Option String) (n mode : String)
    (st : Counts) (h : n ∈ processedNames st c) :
    process_junction c cb n mode st = st := by
  unfold process_junction
  cases hl : alLookup st.processed_reads c with
  | none => simp [processedNames, hl] at h
  | some reads =>
    simp only [processedNames, hl, Option.getD_some] at h
    simp [h]

theorem processedNames_process_junction_mono (c k : String) (cb : Option String)
    (n name mode : String) (st : Counts) (h : n ∈ processedNames st c) :
    n ∈ processedNames (process_junction k cb name mode st) c := by
  unfold process_junction
  by_cases hkc : c = k
  · subst hkc
    cases hl : alLookup st.processed_reads c with
    | none => simp [processedNames, hl] at h
    | some reads =>
      simp only [processedNames, hl, Option.getD_some] at h
      by_cases hmem : name ∈ reads
      · simp [processedNames, hl, hmem, h]
      · simp only [hmem, if_false, processedNames, countRead_processed,
          alLookup_alUpdate_self, hl]
        simp [h]
  · cases hl : alLookup st.processed_reads k with
    | none =>
      simp only [processedNames, countRead_processed,
        alLookup_alUpdate_ne st.processed_reads k c [] _ hkc]
      exact h
    | some reads =>
      by_cases hmem : name ∈ reads
      · simpa [processedNames, hmem] using h
      · simp only [hmem, if_false, processedNames, countRead_processed,
          alLookup_alUpdate_ne st.processed_reads k c [] _ hkc]
        exact h

theorem foldl_preserve {α β : Type} (P : α → Prop) (f : α → β → α)
    (h : ∀ a b, P a → P (f a b)) (l : List β) (a : α) (ha : P a) :
    P (l.foldl f a) := by
  induction l generalizing a with
  | nil => exact ha
  | cons hd tl ih => exact ih _ (h _ _ ha)

theorem flushBuffered_counts_closed (P : Counts → Prop) (hP : PJClosed P)
    (k q mode : String) (buffered : List (Option String × Int)) (st : EngineState)
    (h : P st.counts) : P ((flushBuffered k q mode buffered st).counts) := by
  unfold flushBuffered
  exact foldl_preserve (fun s : EngineState => P s.counts) _
    (fun a b ha => hP _ _ _ _ _ ha) _ _ h

theorem supportAndFlush_counts_closed (P : Counts → Prop) (hP : PJClosed P)
    (k q mode : String) (st : EngineState) (h : P st.counts) :
    P ((supportAndFlush k q mode st).counts) := by
  unfold supportAndFlush
  dsimp only
  cases hb : alLookup st.buffered_reads k with
  | none => exact h
  | some buffered => exact flushBuffered_counts_closed P hP _ _ _ _ _ h

theorem countOrBuffer_counts_closed (P : Counts → Prop) (hP : PJClosed P)
    (k q mode : String) (cb : Option String) (pos : Int) (st : EngineState)
    (h : P st.counts) : P ((countOrBuffer k q mode cb pos st).counts) := by
  unfold countOrBuffer
  by_cases hmem : k ∈ st.supported_junctions
  · simp only [if_pos hmem]
    exact hP _ _ _ _ _ h
  · simp only [if_neg hmem]
    exact h

theorem stepIndex_counts_closed (P : Counts → Prop) (hP : PJClosed P)
    (cfg : Config) (ctx : RecordCtx) (cigars : List CigarOp)
    (acc : EngineState × Int) (i : Nat) (h : P acc.1.counts) :
    P ((stepIndex cfg ctx cigars acc i).1.counts) := by
  obtain ⟨st, pos⟩ := acc
  unfold stepIndex
  cases hget : cigars.get? i with
  | none => exact h
  | some op =>
    cases op with
    | RefSkip len =>
      by_cases hfilter :
          (len : Int) < cfg.min_intron_length ∨ (len : Int) > cfg.max_intron_length
      · simp only [if_pos hfilter]
        exact h
      · simp only [if_neg hfilter]
        apply countOrBuffer_counts_closed P hP
        by_cases hanch :
            left_anchor_length cigars cfg.min_anchor_length i ≥ cfg.min_anchor_length ∧
              right_anchor_length cigars cfg.min_anchor_length i ≥ cfg.min_anchor_length
        · simp only [if_pos hanch]
          exact supportAndFlush_counts_closed P hP _ _ _ _ h
        · simp only [if_neg hanch]
          exact h
    | Match l => exact h
    | Ins l => exact h
    | Del l => exact h
    | SoftClip l => exact h
    | HardClip l => exact h
    | Pad l => exact h
    | Equal l => exact h
    | Diff l => exact h

theorem processCigars_counts_closed (P : Counts → Prop) (hP : PJClosed P)
    (cfg : Config) (ctx : RecordCtx) (cigars : List CigarOp) (st : EngineState)
    (pos0 : Int) (h : P st.counts) :
    P ((processCigars cfg ctx cigars st pos0).1.counts) := by
  unfold processCigars
  exact foldl_preserve (fun acc : EngineState × Int => P acc.1.counts)
    (stepIndex cfg ctx cigars)
    (fun a b ha => stepIndex_counts_closed P hP cfg ctx cigars a b ha)
    (List.range cigars.length) (st, pos0) h

theorem processRecord_counts_closed (P : Counts → Prop) (hP : PJClosed P)
    (cfg : Config) (fg : Bool) (interest : List String) (rn : String)
    (st : EngineState) (r : Record) (h : P st.counts) :
    P ((processRecord cfg fg interest rn st r).counts) := by
  unfold processRecord
  dsimp only
  repeat' split
  all_goals first
    | exact h
    | exact processCigars_counts_closed P hP _ _ _ _ _ h

theorem runRecords_counts_closed (P : Counts → Prop) (hP : PJClosed P)
    (cfg : Config) (fg : Bool) (interest names : List String) :
    ∀ (records : List Record) (st st' : EngineState),
      runRecords cfg fg interest names records st = some st' →
      P st.counts → P st'.counts := by
  intro records
  induction records with
  | nil =>
    intro st st' hrun h
    simp only [runRecords] at hrun
    cases hrun
    exact h
  | cons r rest ih =>
    intro st st' hrun h
    simp only [runRecords] at hrun
    cases hname : refNameLookup names r.tid with
    | none => simp [hname] at hrun
    | some rn =>
      simp only [hname] at hrun
      exact ih _ _ hrun (processRecord_counts_closed P hP _ _ _ _ _ _ h)

theorem process_junction_totals_ne (k c : String) (hne : c ≠ k) (cb : Option String)
    (n mode : String) (st : Counts) :
    alLookup (process_junction k cb n mode st).junction_totals c =
      alLookup st.junction_totals c := by
  unfold process_junction
  cases hl : alLookup st.processed_reads k with
  | some reads =>
    simp only [hl]
    by_cases hmem : n ∈ reads
    · simp [hmem]
    · simp only [hmem, if_false]
      unfold countRead
      split
      · cases cb <;> simp
      · simp [alLookup_alUpdate_ne _ _ _ _ _ hne]
  | none =>
    simp only [hl]
    unfold countRead
    split
    · cases cb <;> simp
    · simp [alLookup_alUpdate_ne _ _ _ _ _ hne]

theorem process_junction_counts_ne (k c : String) (hne : c ≠ k) (cb : Option String)
    (n mode : String) (st : Counts) :
    alLookup (process_junction k cb n mode st).junction_counts c =
      alLookup st.junction_counts c := by
  unfold process_junction
  cases hl : alLookup st.processed_reads k with
  | some reads =>
    simp only [hl]
    by_cases hmem : n ∈ reads
    · simp [hmem]
    · simp only [hmem, if_false]
      unfold countRead
      split
      · cases cb with
        | none => simp
        | some cb_str => simp [alLookup_alUpdate_ne _ _ _ _ _ hne]
      · simp
  | none =>
    simp only [hl]
    unfold countRead
    split
    · cases cb with
      | none => simp
      | some cb_str => simp [alLookup_alUpdate_ne _ _ _ _ _ hne]
    · simp

theorem totalsAt_process_junction_le (k c : String) (cb : Option String)
    (n mode : String) (st : Counts) :
    totalsAt (process_junction k cb n mode st) c ≤ totalsAt st c + 1 := by
  by_cases hne : c = k
  · subst hne
    unfold process_junction
    cases hl : alLookup st.processed_reads c with
    | some reads =>
      simp only [hl]
      by_cases hmem : n ∈ reads
      · simp [hmem, Nat.le_succ]
      · simp only [hmem, if_false]
        unfold totalsAt countRead
        split
        · cases cb <;> simp [Nat.le_succ]
        · simp [alLookup_alUpdate_self]
    | none =>
      simp only [hl]
      unfold totalsAt countRead
      split
      · cases cb <;> simp [Nat.le_succ]
      · simp [alLookup_alUpdate_self]
  · unfold totalsAt
    rw [process_junction_totals_ne k c hne]
    exact Nat.le_succ _

theorem cellAt_process_junction_le (k c b : String) (cb : Option String)
    (n mode : String) (st : Counts) :
    cellAt (process_junction k cb n mode st) c b ≤ cellAt st c b + 1 := by
  by_cases hne : c = k
  · subst hne
    unfold process_junction
    cases hl : alLookup st.processed_reads c with
    | some reads =>
      simp only [hl]
      by_cases hmem : n ∈ reads
      · simp [hmem, Nat.le_succ]
      · simp only [hmem, if_false]
        unfold cellAt countRead
        split
        · cases cb with
          | none => simp [Nat.le_succ]
          | some cb_str =>
            simp only [alLookup_alUpdate_self, Option.getD_some]
            by_cases hb : b = cb_str
            · subst hb
              simp [alLookup_alUpdate_self]
            · rw [alLookup_alUpdate_ne _ _ _ _ _ hb]
              exact Nat.le_succ _
        · simp [Nat.le_succ]
    | none =>
      simp only [hl]
      unfold cellAt countRead
      split
      · cases cb with
        | none => simp [Nat.le_succ]
        | some cb_str =>
          simp only [alLookup_alUpdate_self, Option.getD_some]
          by_cases hb : b = cb_str
          · subst hb
            simp [alLookup_alUpdate_self]
          · rw [alLookup_alUpdate_ne _ _ _ _ _ hb]
            exact Nat.le_succ _
      · simp [Nat.le_succ]
  · unfold cellAt
    rw [process_junction_counts_ne k c hne]
    exact Nat.le_succ _

/-- C2: for every (junction coordinate, read name) pair the total
contribution to the count table over an entire run is at most 1, whatever
path (buffer flush or direct counting) submits the read.  Formally: (1) a
submission whose read name is already in the processed set of the coordinate
changes nothing; (2) every submission leaves the read name in the processed
set; (3) hence an immediately repeated submission for the same pair is a
no-op; (4) membership in the processed set persists through the rest of the
run, every mutation of which goes through `process_junction`; (5)-(6) a
single submission raises the bulk total, and any per-barcode cell, by at
most one.  Together: the first submission of a pair contributes at most one
count, and every later submission of the same pair contributes nothing. -/
theorem tosa_C2 :
    (∀ (st : Counts) (c n : String) (cb : Option String) (mode : String),
       n ∈ processedNames st c → process_junction c cb n mode st = st) ∧
    (∀ (st : Counts) (c n : String) (cb : Option String) (mode : String),
       n ∈ processedNames (process_junction c cb n mode st) c) ∧
    (∀ (st : Counts) (c n : String) (cb cb' : Option String) (mode mode' : String),
       process_junction c cb' n mode' (process_junction c cb n mode st) =
         process_junction c cb n mode st) ∧
    (∀ (cfg : Config) (fg : Bool) (interest names : List String)
       (records : List Record) (st st' : EngineState) (c n : String),
       runRecords cfg fg interest names records st = some st' →
       n ∈ processedNames st.counts c → n ∈ processedNames st'.counts c) ∧
    (∀ (st : Counts) (k c n : String) (cb : Option String) (mode : String),
       totalsAt (process_junction k cb n mode st) c ≤ totalsAt st c + 1) ∧
    (∀ (st : Counts) (k c b n : String) (cb : Option String) (mode : String),
       cellAt (process_junction k cb n mode st) c b ≤ cellAt st c b + 1) := by
  refine ⟨?_, ?_, ?_, ?_, ?_, ?_⟩
  · intro st c n cb mode h
    exact process_junction_noop c cb n mode st h
  · intro st c n cb mode
    exact processedNames_process_junction_self c cb n mode st
  · intro st c n cb cb' mode mode'
    exact process_junction_noop c cb' n mode' _
      (processedNames_process_junction_self c cb n mode st)
  · intro cfg fg interest names records st st' c n hrun h
    exact runRecords_counts_closed (fun cnt => n ∈ processedNames cnt c)
      (fun k kcb kn kmode kst hk =>
        processedNames_process_junction_mono c k kcb n kn kmode kst hk)
      cfg fg interest names records st st' hrun h
  · intro st k c n cb mode
    exact totalsAt_process_junction_le k c cb n mode st
  · intro st k c b n cb mode
    exact cellAt_process_junction_le k c b cb n mode st

/-- Witness for C2: the hypotheses hold at a concrete state in which read
"r2" is already processed for chr1:103-204, so a repeated submission is a
no-op and the membership persists through an (empty) rest of the run. -/
theorem tosa_C2_witness :
    process_junction "chr1:103-204" none "r2" "bulk" stSeenR2 = stSeenR2 ∧
    "r2" ∈ processedNames stEngSeen.counts "chr1:103-204" ∧
    totalsAt (process_junction "chr1:103-204" none "r2" "bulk" stSeenR2)
      "chr1:103-204" ≤ totalsAt stSeenR2 "chr1:103-204" + 1 := by
  refine ⟨tosa_C2.1 stSeenR2 "chr1:103-204" "r2" none "bulk" (by decide), ?_, ?_⟩
  · exact tosa_C2.2.2.2.1 cfgBulkDefault false [] ["chr1"] [] stEngSeen stEngSeen
      "chr1:103-204" "r2" rfl (by decide)
  · exact tosa_C2.2.2.2.2.1 stSeenR2 "chr1:103-204" "chr1:103-204" "r2" none "bulk"

theorem posBeforeIndex_zero (pos0 : Int) (cigars : List CigarOp) :
    posBeforeIndex pos0 cigars 0 = pos0 := rfl

theorem posBeforeIndex_succ (pos0 : Int) (cigars : List CigarOp) (n : Nat) :
    posBeforeIndex pos0 cigars (n + 1) =
      posBeforeIndex pos0 cigars n +
        (match cigars.get? n with
         | some op => cigarAdvance op
         | none => 0) := by
  induction cigars generalizing pos0 n with
  | nil => simp [posBeforeIndex, List.get?]
  | cons c cs ih =>
    cases n with
    | zero => simp [posBeforeIndex, List.get?]
    | succ m =>
      have h1 : posBeforeIndex pos0 (c :: cs) (m + 1 + 1) =
          posBeforeIndex (pos0 + cigarAdvance c) cs (m + 1) := rfl
      have h2 : posBeforeIndex pos0 (c :: cs) (m + 1) =
          posBeforeIndex (pos0 + cigarAdvance c) cs m := rfl
      rw [h1, h2, ih]
      rfl

theorem stepIndex_snd (cfg : Config) (ctx : RecordCtx) (cigars : List CigarOp)
    (acc : EngineState × Int) (i : Nat) :
    (stepIndex cfg ctx cigars acc i).2 =
      acc.2 +
        (match cigars.get? i with
         | some op => cigarAdvance op
         | none => 0) := by
  obtain ⟨st, pos⟩ := acc
  unfold stepIndex
  cases hget : cigars.get? i with
  | none => simp
  | some op =>
    cases op with
    | RefSkip len =>
      by_cases hfilter :
          (len : Int) < cfg.min_intron_length ∨ (len : Int) > cfg.max_intron_length
      · simp [hfilter, cigarAdvance]
      · simp [hfilter, cigarAdvance]
    | Match l => simp [cigarAdvance]
    | Ins l => simp [cigarAdvance]
    | Del l => simp [cigarAdvance]
    | SoftClip l => simp [cigarAdvance]
    | HardClip l => simp [cigarAdvance]
    | Pad l => simp [cigarAdvance]
    | Equal l => simp [cigarAdvance]
    | Diff l => simp [cigarAdvance]

theorem range_foldl_succ {α : Type} (f : α → Nat → α) (a : α) (n : Nat) :
    (List.range (n + 1)).foldl f a = f ((List.range n).foldl f a) n := by
  rw [List.range_succ, List.foldl_append]
  rfl

theorem foldSteps_snd (cfg : Config) (ctx : RecordCtx) (cigars : List CigarOp)
    (st : EngineState) (pos0 : Int) :
    ∀ n, ((List.range n).foldl (stepIndex cfg ctx cigars) (st, pos0)).2 =
      posBeforeIndex pos0 cigars n := by
  intro n
  induction n with
  | zero => rfl
  | succ m ih =>
    rw [range_foldl_succ, stepIndex_snd, ih, posBeforeIndex_succ]

/-- C1: two reads at the identical coordinate chr1:103-204, the first with
left anchor 3 (insufficient), the second with both anchors 10 (sufficient).
The spec demands a final count of 2 (flushed buffered read plus the
triggering read).  The code counts 1: the flush submits the buffered entry
under the read name "r2" of the triggering record (the buffer stores no read
names), so the dedup gate then rejects the triggering read itself. -/
theorem tosa_C1 :
    left_anchor_length recShortAnchor.cigars 8 1 = 3 ∧
    supportsCoord cfgBulkDefault "chr1" recShortAnchor "chr1:103-204" = false ∧
    supportsCoord cfgBulkDefault "chr1" recFullAnchor "chr1:103-204" = true ∧
    (runRecords cfgBulkDefault false [] ["chr1"] [recShortAnchor, recFullAnchor]
        initialState).map (fun st => st.counts.junction_totals) =
      some [("chr1:103-204", 1)] ∧
    (runRecords cfgBulkDefault false [] ["chr1"] [recShortAnchor, recFullAnchor]
        initialState).map (fun st => st.counts.processed_reads) =
      some [("chr1:103-204", ["r2"])] ∧
    (1 : Nat) ≠ 2 := by
  decide

/-- C9: the bulk scenario record of the spec (CIGAR [Match 50, RefSkip 80,
Match 50], start 100, default thresholds) emits exactly one candidate at
chrom:150-231, the junction is immediately supported, the final bulk count
is 1, and the position advances by 80 after emission (150 to 230, final
280), not by 81. -/
theorem tosa_C9 :
    candidateKeys cfgBulkDefault "chrom" 100 recScenario.cigars = ["chrom:150-231"] ∧
    supportsCoord cfgBulkDefault "chrom" recScenario "chrom:150-231" = true ∧
    (runRecords cfgBulkDefault false [] ["chrom"] [recScenario] initialState).map
        (fun st => (st.counts.junction_totals, st.supported_junctions)) =
      some ([("chrom:150-231", 1)], ["chrom:150-231"]) ∧
    posBeforeIndex 100 recScenario.cigars 1 = 150 ∧
    posBeforeIndex 100 recScenario.cigars 2 = 150 + 80 ∧
    (processCigars cfgBulkDefault ⟨"chrom", "r1", none⟩ recScenario.cigars
        initialState 100).2 = 280 := by
  decide

/-- C4 counterexample: an Equal operation does not advance the running
position.  A leading Equal 50 leaves the position at 100, so the junction
of recEqualAnchor lands at chrom:100-181 instead of the chrom:150-231 that
the position bookkeeping of the claim would give. -/
theorem tosa_C4_counterexample :
    (stepIndex cfgBulkDefault ⟨"chrom", "r1", none⟩ [CigarOp.Equal 50]
        (initialState, 100) 0).2 = 100 ∧
    (100 : Int) ≠ 100 + 50 ∧
    (runRecords cfgBulkDefault false [] ["chrom"] [recEqualAnchor] initialState).map
        (fun st => (alLookup st.counts.junction_totals "chrom:100-181",
                    alLookup st.counts.junction_totals "chrom:150-231")) =
      some (some 1, none) := by
  decide

/-- C4 (amended): during the walk over the operation list of one record, each
iteration advances the position by `cigarAdvance`: Match, Ins, Del and
RefSkip advance by their length, while Equal, Diff, HardClip and Pad
advance nothing (the `_ => 0` arm), and SoftClip advances nothing and is
skipped entirely; Equal and Diff iterations also leave the whole state
unchanged. -/
theorem tosa_C4 (cfg : Config) (ctx : RecordCtx) (cigars : List CigarOp)
    (st : EngineState) (pos : Int) (i : Nat) (op : CigarOp)
    (hget : cigars.get? i = some op) :
    (stepIndex cfg ctx cigars (st, pos) i).2 = pos + cigarAdvance op ∧
    (∀ l, op = CigarOp.SoftClip l → stepIndex cfg ctx cigars (st, pos) i = (st, pos)) ∧
    (∀ l, op = CigarOp.Equal l ∨ op = CigarOp.Diff l →
       stepIndex cfg ctx cigars (st, pos) i = (st, pos)) ∧
    (∀ l : Nat, cigarAdvance (CigarOp.Match l) = (l : Int) ∧
       cigarAdvance (CigarOp.Ins l) = (l : Int) ∧
       cigarAdvance (CigarOp.Del l) = (l : Int) ∧
       cigarAdvance (CigarOp.RefSkip l) = (l : Int) ∧
       cigarAdvance (CigarOp.Equal l) = 0 ∧
       cigarAdvance (CigarOp.Diff l) = 0 ∧
       cigarAdvance (CigarOp.SoftClip l) = 0) := by
  refine ⟨?_, ?_, ?_, ?_⟩
  · rw [stepIndex_snd, hget]
  · intro l hop
    subst hop
    unfold stepIndex
    rw [hget]
  · intro l hop
    rcases hop with hop | hop <;>
    · subst hop
      unfold stepIndex
      rw [hget]
  · intro l
    exact ⟨rfl, rfl, rfl, rfl, rfl, rfl, rfl⟩

/-- Witness for C4 at a concrete SoftClip operation. -/
theorem tosa_C4_witness :
    List.get? [CigarOp.SoftClip 5] 0 = some (CigarOp.SoftClip 5) ∧
    (stepIndex cfgBulkDefault ⟨"chrom", "r1", none⟩ [CigarOp.SoftClip 5]
        (initialState, 0) 0).2 = 0 + cigarAdvance (CigarOp.SoftClip 5) ∧
    stepIndex cfgBulkDefault ⟨"chrom", "r1", none⟩ [CigarOp.SoftClip 5]
        (initialState, 0) 0 = (initialState, 0) := by
  have h := tosa_C4 cfgBulkDefault ⟨"chrom", "r1", none⟩ [CigarOp.SoftClip 5]
    initialState 0 0 (CigarOp.SoftClip 5) rfl
  exact ⟨rfl, h.1, h.2.1 5 rfl⟩

/-- C5: on a run with one feature and one barcode, `barcode_map` already
assigns barcode "CB1" the 1-based index 1, and the matrix data line then
adds another 1, emitting column 2 - the data line reads "1 2 1" although
the header declares a single barcode column and the 1-based line would be
"1 1 1".  Columns are 2-based, contradicting the claim. -/
theorem tosa_C5 :
    singleMatrixLines stOneCell (storedOrder stOneCell.counts.junction_counts) =
      ["%%MatrixMarket matrix coordinate integer general", "%", "1 1 1", "1 2 1"] ∧
    alLookup (barcode_map (barcodeListOf stOneCell)) "CB1" = some 1 ∧
    "1 2 1" ≠ "1 1 1" := by
  decide

/-- C6 counterexample: no `max_loci` option is registered, and a record
whose locus-count tag is 1000000 (far above the claimed default maximum
of 1) is processed and counted rather than dropped. -/
theorem tosa_C6_counterexample :
    "max_loci" ∉ recognizedOptions ∧
    recManyLoci.nh_tag = some 1000000 ∧
    (runRecords cfgBulkDefault false [] ["chr1"] [recManyLoci] initialState).map
        (fun st => alLookup st.counts.junction_totals "chr1:150-231") =
      some (some 1) := by
  decide

/-- C6 (amended): the program registers no `max_loci` option and the
per-record processing never reads the locus-count tag: replacing the tag by
`none` never changes the result, so no read is dropped for its locus
count. -/
theorem tosa_C6 (cfg : Config) (fg : Bool) (interest : List String) (rn : String)
    (st : EngineState) (r : Record) :
    processRecord cfg fg interest rn st r =
      processRecord cfg fg interest rn st
        { tid := r.tid, pos := r.pos, qname := r.qname, cb_tag := r.cb_tag,
          nh_tag := none, cigars := r.cigars } ∧
    "max_loci" ∉ recognizedOptions := by
  constructor
  · cases r
    rfl
  · decide

/-- C10: for a record mapped to a reference (0 <= tid < number of targets,
tid in i32 range), the chromosome lookup succeeds; for an unmapped record
with tid = -1 the cast wraps to 2^64 - 1, the lookup is out of bounds, and
the run cannot continue (modelled as `none`). -/
theorem tosa_C10 (reference_names : List String) (tid : Int) (h0 : 0 ≤ tid)
    (h1 : tid < (reference_names.length : Int)) (h2 : tid < 2 ^ 31) :
    (refNameLookup reference_names tid).isSome = true ∧
    refNameLookup ["chr1"] (-1) = none ∧
    runRecords cfgBulkDefault false [] ["chr1"] [recUnmapped] initialState = none := by
  refine ⟨?_, by decide, by decide⟩
  unfold refNameLookup i32AsUsize
  rw [Int.emod_eq_of_lt h0 (by omega)]
  have hlt : tid.toNat < reference_names.length := by omega
  rw [List.get?_eq_get hlt]
  rfl

/-- Witness for C10 at a mapped record: tid 1 against two references. -/
theorem tosa_C10_witness :
    (0 : Int) ≤ 1 ∧ (1 : Int) < ((["chr1", "chr2"] : List String).length : Int) ∧
    (1 : Int) < 2 ^ 31 ∧
    (refNameLookup ["chr1", "chr2"] 1).isSome = true := by
  have h := tosa_C10 ["chr1", "chr2"] 1 (by decide) (by decide) (by decide)
  exact ⟨by decide, by decide, by decide, h.1⟩

theorem perm_filterMap {α β : Type} (g : α → Option β) {l₁ l₂ : List α}
    (p : List.Perm l₁ l₂) : List.Perm (l₁.filterMap g) (l₂.filterMap g) := by
  induction p with
  | nil => simp
  | cons x _ ih =>
    cases hx : g x <;> simp [List.filterMap_cons, hx, ih, List.Perm.cons]
  | swap x y l =>
    cases hx : g x <;> cases hy : g y <;>
      simp [List.filterMap_cons, hx, hy, List.Perm.refl, List.Perm.swap]
  | trans _ _ ih1 ih2 => exact ih1.trans ih2

theorem flatMap_perm {γ β : Type} (l : List γ) (f g : γ → List β)
    (h : ∀ x ∈ l, List.Perm (f x) (g x)) :
    List.Perm (l.flatMap f) (l.flatMap g) := by
  induction l with
  | nil => simp
  | cons hd tl ih =>
    simp only [List.flatMap_cons]
    exact (h hd (by simp)).append (ih (fun x hx => h x (by simp [hx])))

theorem snd_mem_of_mem_enumFrom {α : Type} :
    ∀ (l : List α) (n : Nat) (p : Nat × α), p ∈ List.enumFrom n l → p.2 ∈ l := by
  intro l
  induction l with
  | nil => intro n p hp; simp [List.enumFrom] at hp
  | cons hd tl ih =>
    intro n p hp
    simp only [List.enumFrom, List.mem_cons] at hp
    rcases hp with hp | hp
    · subst hp
      simp
    · simp [ih (n + 1) p hp]

theorem snd_mem_of_mem_enum {α : Type} (l : List α) (p : Nat × α)
    (hp : p ∈ l.enum) : p.2 ∈ l :=
  snd_mem_of_mem_enumFrom l 0 p hp

/-- C8 (amended): the count table, barcode set, feature set, the sorted
barcode/feature files and the sorted bulk table are pure functions of the
input, but within each feature the matrix and flat-table data lines follow
the unspecified iteration order of the cell `HashMap`: any two valid iteration
orders yield outputs that agree only up to permutation of the data lines
(identical header), not byte for byte, and the lines within a feature are
not sorted by barcode. -/
theorem tosa_C8 (st : EngineState) (o₁ o₂ : String → List (String × Nat))
    (h₁ : ∀ f ∈ featureListOf st,
       List.Perm (o₁ f) ((alLookup st.counts.junction_counts f).getD []))
    (h₂ : ∀ f ∈ featureListOf st,
       List.Perm (o₂ f) ((alLookup st.counts.junction_counts f).getD [])) :
    List.Perm (singleMatrixLines st o₁) (singleMatrixLines st o₂) ∧
    List.Perm (singleTsvLines st o₁) (singleTsvLines st o₂) := by
  have h12 : ∀ f ∈ featureListOf st, List.Perm (o₁ f) (o₂ f) :=
    fun f hf => (h₁ f hf).trans (h₂ f hf).symm
  constructor
  · unfold singleMatrixLines
    apply List.Perm.append_left
    unfold matrixDataLines
    apply flatMap_perm
    intro p hp
    cases halo : alLookup st.counts.junction_counts p.2 with
    | none => simp
    | some cells =>
      exact perm_filterMap _ (h12 p.2 (snd_mem_of_mem_enum _ p hp))
  · unfold singleTsvLines
    apply List.Perm.cons
    unfold tsvDataLines
    apply flatMap_perm
    intro p hp
    cases halo : alLookup st.counts.junction_counts p.2 with
    | none => simp
    | some cells =>
      exact perm_filterMap _ (h12 p.2 (snd_mem_of_mem_enum _ p hp))

/-- C8 counterexample: on a state holding one feature with barcodes CB1 and
CB2, two valid iteration orders of the same cell map produce different
matrix files and different flat-table files, and under the reversed order
the lines within the feature are not in sorted barcode order - so the
output bytes are not determined by the input. -/
theorem tosa_C8_counterexample :
    List.Perm (orderForward "chr1:100-200")
      ((alLookup stTwoCells.counts.junction_counts "chr1:100-200").getD []) ∧
    List.Perm (orderBackward "chr1:100-200")
      ((alLookup stTwoCells.counts.junction_counts "chr1:100-200").getD []) ∧
    singleMatrixLines stTwoCells orderForward ≠
      singleMatrixLines stTwoCells orderBackward ∧
    singleTsvLines stTwoCells orderForward ≠
      singleTsvLines stTwoCells orderBackward := by
  decide

/-- Witness for C8 at the two concrete valid iteration orders. -/
theorem tosa_C8_witness :
    List.Perm (orderForward "chr1:100-200")
      ((alLookup stTwoCells.counts.junction_counts "chr1:100-200").getD []) ∧
    List.Perm (singleMatrixLines stTwoCells orderForward)
      (singleMatrixLines stTwoCells orderBackward) ∧
    List.Perm (singleTsvLines stTwoCells orderForward)
      (singleTsvLines stTwoCells orderBackward) := by
  have hA : ∀ f ∈ featureListOf stTwoCells,
      List.Perm (orderForward f)
        ((alLookup stTwoCells.counts.junction_counts f).getD []) := by decide
  have hB : ∀ f ∈ featureListOf stTwoCells,
      List.Perm (orderBackward f)
        ((alLookup stTwoCells.counts.junction_counts f).getD []) := by decide
  have h := tosa_C8 stTwoCells orderForward orderBackward hA hB
  exact ⟨by decide, h.1, h.2⟩

/-- C3 counterexample: the boundary routine, had it been applied to
the interval [50, 150) of recPlainMatch as the claim states, would count both
boundaries of the known intron ("chr1", 100, 140); the per-record
processing records nothing for this record, and its bulk output holds only
the header row - no boundary count is produced alongside the junction
counts. -/
theorem tosa_C3_counterexample :
    (count_exon_intron_boundaries none [("chr1", 100, 140)] "chr1" 50 150 "r1"
        "bulk" initialBoundaryState).left_totals = [("chr1:100-140", 1)] ∧
    (count_exon_intron_boundaries none [("chr1", 100, 140)] "chr1" 50 150 "r1"
        "bulk" initialBoundaryState).right_totals = [("chr1:100-140", 1)] ∧
    (runRecords cfgBulkDefault false [] ["chr1"] [recPlainMatch] initialState).map
        (fun st => st.counts.junction_totals) = some [] ∧
    (runRecords cfgBulkDefault false [] ["chr1"] [recPlainMatch] initialState).map
        (fun st => bulkOutputLines st.counts.junction_totals) =
      some ["Junction\tCount"] := by
  decide

/-- C3 (amended): the boundary routine of the repository,
`count_exon_intron_boundaries` does implement the claimed counting - for a
known intron (ic, s, e), a read interval [start, stop] on the same
chromosome increments the left counter when start <= s <= stop and the
right counter when start <= e <= stop, per-barcode in single mode and as a
global total in bulk mode, with read names deduplicated once per
chromosome - but it is dead code: `main` neither declares nor calls the
boundary module, so the program never applies it (see the counterexample
theorem for the program side). -/
theorem tosa_C3 (st : BoundaryState) (ic : String) (s e : Int) (chrom : String)
    (start stop : Int) (name cb : String)
    (hfresh : name ∉ (alLookup st.processed_boundary_reads chrom).getD []) :
    ((alLookup (count_exon_intron_boundaries none [(ic, s, e)] chrom start stop
          name "bulk" st).left_totals (junctionKey ic s e)).getD 0 =
        (alLookup st.left_totals (junctionKey ic s e)).getD 0 +
          (if chrom = ic ∧ start ≤ s ∧ stop ≥ s then 1 else 0)) ∧
    ((alLookup (count_exon_intron_boundaries none [(ic, s, e)] chrom start stop
          name "bulk" st).right_totals (junctionKey ic s e)).getD 0 =
        (alLookup st.right_totals (junctionKey ic s e)).getD 0 +
          (if chrom = ic ∧ start ≤ e ∧ stop ≥ e then 1 else 0)) ∧
    ((alLookup ((alLookup (count_exon_intron_boundaries (some cb) [(ic, s, e)]
            chrom start stop name "single" st).left_counts
          (junctionKey ic s e)).getD []) cb).getD 0 =
        (alLookup ((alLookup st.left_counts (junctionKey ic s e)).getD []) cb).getD 0 +
          (if chrom = ic ∧ start ≤ s ∧ stop ≥ s then 1 else 0)) ∧
    (∀ (st2 : BoundaryState) (introns2 : List (String × Int × Int))
       (cb2 : Option String) (mode2 chrom2 : String) (start2 stop2 : Int)
       (reads : List String),
       alLookup st2.processed_boundary_reads chrom2 = some reads → name ∈ reads →
       count_exon_intron_boundaries cb2 introns2 chrom2 start2 stop2 name mode2 st2 =
         st2) := by
  have hseen :
      (match alLookup st.processed_boundary_reads chrom with
       | some reads => reads.contains name
       | none => false) = false := by
    cases hl : alLookup st.processed_boundary_reads chrom with
    | none => rfl
    | some reads =>
      simp only [hl, Option.getD_some] at hfresh
      simpa using hfresh
  refine ⟨?_, ?_, ?_, ?_⟩
  · unfold count_exon_intron_boundaries
    rw [hseen]
    simp only [Bool.false_eq_true, if_false, List.foldl_cons, List.foldl_nil]
    by_cases hc : chrom = ic
    · by_cases hL : start ≤ s ∧ stop ≥ s <;> by_cases hR : start ≤ e ∧ stop ≥ e <;>
        simp [hc, hL, hR, alLookup_alUpdate_self]
    · simp [hc]
  · unfold count_exon_intron_boundaries
    rw [hseen]
    simp only [Bool.false_eq_true, if_false, List.foldl_cons, List.foldl_nil]
    by_cases hc : chrom = ic
    · by_cases hL : start ≤ s ∧ stop ≥ s <;> by_cases hR : start ≤ e ∧ stop ≥ e <;>
        simp [hc, hL, hR, alLookup_alUpdate_self]
    · simp [hc]
  · unfold count_exon_intron_boundaries
    rw [hseen]
    simp only [Bool.false_eq_true, if_false, List.foldl_cons, List.foldl_nil]
    by_cases hc : chrom = ic
    · by_cases hL : start ≤ s ∧ stop ≥ s <;> by_cases hR : start ≤ e ∧ stop ≥ e <;>
        simp [hc, hL, hR, alLookup_alUpdate_self]
    · simp [hc]
  · intro st2 introns2 cb2 mode2 chrom2 start2 stop2 reads hl hmem
    unfold count_exon_intron_boundaries
    rw [hl]
    simp [hmem]

/-- Witness for C3: the bulk left-boundary increment at a concrete fresh
read straddling the intron ("chr1", 100, 140). -/
theorem tosa_C3_witness :
    (alLookup (count_exon_intron_boundaries none [("chr1", 100, 140)] "chr1" 50 150
          "r1" "bulk" initialBoundaryState).left_totals
        (junctionKey "chr1" 100 140)).getD 0 =
      (alLookup initialBoundaryState.left_totals (junctionKey "chr1" 100 140)).getD 0 +
        (if ("chr1" : String) = "chr1" ∧ (50 : Int) ≤ 100 ∧ (150 : Int) ≥ 100 then 1
         else 0) := by
  exact (tosa_C3 initialBoundaryState "chr1" 100 140 "chr1" 50 150 "r1" "CB1"
    (by decide)).1

theorem insertSet_not_mem (s : List String) (x c : String) (hne : c ≠ x)
    (h : c ∉ s) : c ∉ insertSet s x := by
  unfold insertSet
  split
  · exact h
  · simp [h, hne]

theorem flushBuffered_neverCounted (k q mode c : String) (hk : k ≠ c)
    (buffered : List (Option String × Int)) (st : EngineState)
    (h : neverCounted c st) : neverCounted c (flushBuffered k q mode buffered st) := by
  unfold flushBuffered
  refine foldl_preserve (neverCounted c) _ ?_ _ _ h
  intro a b ha
  exact ⟨ha.1,
    by rw [process_junction_totals_ne k c (Ne.symm hk)]; exact ha.2.1,
    by rw [process_junction_counts_ne k c (Ne.symm hk)]; exact ha.2.2⟩

theorem supportAndFlush_neverCounted (k q mode c : String) (hk : k ≠ c)
    (st : EngineState) (h : neverCounted c st) :
    neverCounted c (supportAndFlush k q mode st) := by
  unfold supportAndFlush
  dsimp only
  have hsup : c ∉ insertSet st.supported_junctions k :=
    insertSet_not_mem _ _ _ (Ne.symm hk) h.1
  cases hb : alLookup st.buffered_reads k with
  | none => exact ⟨hsup, h.2.1, h.2.2⟩
  | some buffered =>
    exact flushBuffered_neverCounted k q mode c hk _ _ ⟨hsup, h.2.1, h.2.2⟩

theorem countOrBuffer_neverCounted_ne (k q mode c : String) (cb : Option String)
    (pos : Int) (hk : k ≠ c) (st : EngineState) (h : neverCounted c st) :
    neverCounted c (countOrBuffer k q mode cb pos st) := by
  unfold countOrBuffer
  split
  · exact ⟨h.1,
      by rw [process_junction_totals_ne k c (Ne.symm hk)]; exact h.2.1,
      by rw [process_junction_counts_ne k c (Ne.symm hk)]; exact h.2.2⟩
  · exact ⟨h.1, h.2.1, h.2.2⟩

theorem countOrBuffer_neverCounted_self (q mode c : String) (cb : Option String)
    (pos : Int) (st : EngineState) (h : neverCounted c st) :
    neverCounted c (countOrBuffer c q mode cb pos st) := by
  unfold countOrBuffer
  rw [if_neg h.1]
  exact ⟨h.1, h.2.1, h.2.2⟩

theorem stepIndex_neverCounted (cfg : Config) (ctx : RecordCtx)
    (cigars : List CigarOp) (c : String) (st : EngineState) (pos : Int) (i : Nat)
    (hcand : ∀ len : Nat, cigars.get? i = some (CigarOp.RefSkip len) →
       cfg.min_intron_length ≤ (len : Int) → (len : Int) ≤ cfg.max_intron_length →
       junctionKey ctx.ref_name pos (pos + (len : Int) + 1) = c →
       ¬(left_anchor_length cigars cfg.min_anchor_length i ≥ cfg.min_anchor_length ∧
         right_anchor_length cigars cfg.min_anchor_length i ≥ cfg.min_anchor_length))
    (h : neverCounted c st) :
    neverCounted c (stepIndex cfg ctx cigars (st, pos) i).1 := by
  unfold stepIndex
  cases hget : cigars.get? i with
  | none => exact h
  | some op =>
    cases op with
    | RefSkip len =>
      by_cases hfilter :
          (len : Int) < cfg.min_intron_length ∨ (len : Int) > cfg.max_intron_length
      · simp only [if_pos hfilter]
        exact h
      · simp only [if_neg hfilter]
        push_neg at hfilter
        by_cases hco : junctionKey ctx.ref_name pos (pos + (len : Int) + 1) = c
        · have hnab := hcand len hget hfilter.1 hfilter.2 hco
          rw [if_neg hnab, hco]
          exact countOrBuffer_neverCounted_self _ _ _ _ _ _ h
        · apply countOrBuffer_neverCounted_ne _ _ _ _ _ _ hco
          split
          · exact supportAndFlush_neverCounted _ _ _ _ hco _ h
          · exact h
    | Match l => exact h
    | Ins l => exact h
    | Del l => exact h
    | SoftClip l => exact h
    | HardClip l => exact h
    | Pad l => exact h
    | Equal l => exact h
    | Diff l => exact h

theorem processCigars_neverCounted (cfg : Config) (ctx : RecordCtx)
    (cigars : List CigarOp) (c : String) (st : EngineState) (pos0 : Int)
    (hs : ∀ (i : Nat) (len : Nat), cigars.get? i = some (CigarOp.RefSkip len) →
       cfg.min_intron_length ≤ (len : Int) → (len : Int) ≤ cfg.max_intron_length →
       junctionKey ctx.ref_name (posBeforeIndex pos0 cigars i)
         (posBeforeIndex pos0 cigars i + (len : Int) + 1) = c →
       ¬(left_anchor_length cigars cfg.min_anchor_length i ≥ cfg.min_anchor_length ∧
         right_anchor_length cigars cfg.min_anchor_length i ≥ cfg.min_anchor_length))
    (h : neverCounted c st) :
    neverCounted c (processCigars cfg ctx cigars st pos0).1 := by
  unfold processCigars
  suffices hall : ∀ n,
      neverCounted c ((List.range n).foldl (stepIndex cfg ctx cigars) (st, pos0)).1 by
    exact hall cigars.length
  intro n
  induction n with
  | zero => exact h
  | succ m ih =>
    rw [range_foldl_succ]
    have hsnd := foldSteps_snd cfg ctx cigars st pos0 m
    have hstep := stepIndex_neverCounted cfg ctx cigars c
      ((List.range m).foldl (stepIndex cfg ctx cigars) (st, pos0)).1
      ((List.range m).foldl (stepIndex cfg ctx cigars) (st, pos0)).2 m
      (by rw [hsnd]; exact hs m) ih
    exact hstep

theorem processRecord_neverCounted (cfg : Config) (fg : Bool)
    (interest : List String) (rn : String) (c : String) (st : EngineState)
    (r : Record) (hsupp : supportsCoord cfg rn r c = false)
    (h : neverCounted c st) :
    neverCounted c (processRecord cfg fg interest rn st r) := by
  have hs : ∀ (i : Nat) (len : Nat), r.cigars.get? i = some (CigarOp.RefSkip len) →
      cfg.min_intron_length ≤ (len : Int) → (len : Int) ≤ cfg.max_intron_length →
      junctionKey rn (posBeforeIndex r.pos r.cigars i)
        (posBeforeIndex r.pos r.cigars i + (len : Int) + 1) = c →
      ¬(left_anchor_length r.cigars cfg.min_anchor_length i ≥ cfg.min_anchor_length ∧
        right_anchor_length r.cigars cfg.min_anchor_length i ≥ cfg.min_anchor_length) := by
    intro i len hget hmin hmax hkey hab
    have hi : i < r.cigars.length := by
      cases hlen : r.cigars.get? i with
      | none => rw [hlen] at hget; cases hget
      | some v =>
        by_contra hge
        rw [List.get?_eq_none.mpr (Nat.le_of_not_lt hge)] at hlen
        cases hlen
    have hmem : i ∈ List.range r.cigars.length := List.mem_range.mpr hi
    have hfalse := List.any_eq_false.mp hsupp i hmem
    apply hfalse
    have hcand : candidateAt cfg rn r.pos r.cigars i = some c := by
      unfold candidateAt
      simp only [hget]
      rw [if_pos ⟨hmin, hmax⟩, hkey]
    simp [hcand, hab.1, hab.2]
  unfold processRecord
  dsimp only
  repeat' split
  all_goals first
    | exact h
    | exact processCigars_neverCounted cfg _ r.cigars c _ r.pos hs
        ⟨h.1, h.2.1, h.2.2⟩

theorem runRecords_neverCounted (cfg : Config) (fg : Bool)
    (interest names : List String) (c : String) :
    ∀ (records : List Record) (st st' : EngineState),
      (∀ r ∈ records,
        supportsCoord cfg ((refNameLookup names r.tid).getD "") r c = false) →
      runRecords cfg fg interest names records st = some st' →
      neverCounted c st → neverCounted c st' := by
  intro records
  induction records with
  | nil =>
    intro st st' _ hrun h
    simp only [runRecords] at hrun
    cases hrun
    exact h
  | cons r rest ih =>
    intro st st' hsup hrun h
    simp only [runRecords] at hrun
    cases hname : refNameLookup names r.tid with
    | none => simp [hname] at hrun
    | some rn =>
      simp only [hname] at hrun
      have hr : supportsCoord cfg rn r c = false := by
        have := hsup r (by simp)
        rwa [hname, Option.getD_some] at this
      exact ih _ _ (fun r2 hr2 => hsup r2 (by simp [hr2])) hrun
        (processRecord_neverCounted cfg fg interest rn c st r hr h)

/-- C7: a coordinate for which no record of the run ever forms a candidate
with both anchors reaching `min_anchor_length` is never marked supported
(it stays buffering forever), and no entry for it exists in the bulk totals
or the per-barcode count table - its buffered reads never contribute to any
output. -/
theorem tosa_C7 (cfg : Config) (fg : Bool) (interest names : List String)
    (records : List Record) (c : String) (st' : EngineState)
    (hsup : ∀ r ∈ records,
      supportsCoord cfg ((refNameLookup names r.tid).getD "") r c = false)
    (hrun : runRecords cfg fg interest names records initialState = some st') :
    c ∉ st'.supported_junctions ∧
    alLookup st'.counts.junction_totals c = none ∧
    alLookup st'.counts.junction_counts c = none := by
  have h := runRecords_neverCounted cfg fg interest names c records initialState st'
    hsup hrun ⟨by simp [initialState], rfl, rfl⟩
  exact ⟨h.1, h.2.1, h.2.2⟩

/-- Witness for C7: recShortAnchor alone never supports chr1:103-204, so
after the run the coordinate is unsupported and absent from the tables. -/
theorem tosa_C7_witness :
    (∀ r ∈ [recShortAnchor],
      supportsCoord cfgBulkDefault
        ((refNameLookup ["chr1"] r.tid).getD "") r "chr1:103-204" = false) ∧
    (runRecords cfgBulkDefault false [] ["chr1"] [recShortAnchor] initialState).map
        (fun st => decide ("chr1:103-204" ∈ st.supported_junctions)) = some false := by
  constructor
  · decide
  · cases hrun : runRecords cfgBulkDefault false [] ["chr1"] [recShortAnchor]
        initialState with
    | none => exact absurd hrun (by decide)
    | some st' =>
      have h := tosa_C7 cfgBulkDefault false [] ["chr1"] [recShortAnchor]
        "chr1:103-204" st' (by decide) hrun
      simp [h.1]

end Tosa
